import Mathlib

/-!
Shallow embedding of the zen-timer session store and statistics engine.

The statistics engine (`calculateAverage`, `calculateBestWorstPossible`,
`calculateSessionMean`) is translated from `src/components/Timer.tsx`;
`useSessions`' copy of `calculateAverage` is line-for-line the same
function, so one definition serves both.  The session store and its
mutating operations are translated from the `useSessions` hook.

JavaScript numbers are modelled by `ℚ` (solve times, sums, divisions) and
`ℤ` (millisecond epoch instants produced by `Date.now()`, which every
operation receives explicitly as a `now` parameter).  `Infinity`, used as
the effective time of a DNF solve, is modelled by `⊤` in `WithTop ℚ`.
`null`/absent results are modelled by `Option`.
-/

/-- Penalty classification of a solve: `type SolveState = 'ok' | 'plus2' | 'dnf'`. -/
inductive SolveState where
  | ok
  | plus2
  | dnf
deriving DecidableEq

/-- `interface SolveRecord` from `Timer.tsx` / the `useSessions` hook.
`ao5`/`ao12` are `number | null` once computed; `Option ℚ` models the
value-or-null alternative (`none` = `null`/absent). -/
structure SolveRecord where
  id : String
  time : ℚ
  scramble : String
  timestamp : ℤ
  state : SolveState
  ao5 : Option ℚ := none
  ao12 : Option ℚ := none
  inspectionTime : Option ℚ := none
  puzzleType : Option String := none
deriving DecidableEq

/-- `interface Session`.  The element type of `solves` is a parameter so
that the same shape covers both well-typed stores (`Session SolveRecord`)
and the dynamically-typed value built by the legacy-migration branch of
`useSessions`, which copies whatever array was stored under the legacy
key. -/
structure Session (α : Type) where
  id : String
  name : String
  createdAt : ℤ
  isActive : Bool
  solves : List α
deriving DecidableEq

/-- `interface SessionManager` — the persisted store root. -/
structure SessionManager (α : Type) where
  sessions : List (Session α)
  activeSessionId : String
  lastUpdated : ℤ
deriving DecidableEq

/-- Effective time of a record for averaging:
`solve.state === 'dnf' ? Infinity : solve.state === 'plus2' ? solve.time + 2000 : solve.time`. -/
def effTime (s : SolveRecord) : WithTop ℚ :=
  match s.state with
  | .dnf => ⊤
  | .plus2 => (↑(s.time + 2000) : WithTop ℚ)
  | .ok => (↑s.time : WithTop ℚ)

/-- `array.filter(time => time !== Infinity)`, with the survivors read back
as plain numbers (they are all finite, so the `untop'` default is never
used). -/
def finitePart (l : List (WithTop ℚ)) : List ℚ :=
  (l.filter (fun t => !(t == ⊤))).map (fun t => t.untop' 0)

/-- `[...array].sort((a, b) => a - b)` — ascending sort; on `WithTop ℚ`
the sorted permutation is unique, so Mathlib's `insertionSort` models it
exactly. -/
def sortTimes (l : List (WithTop ℚ)) : List (WithTop ℚ) :=
  List.insertionSort (· ≤ ·) l

/-- The embedding of a finite time into `WithTop ℚ`. -/
def toTop (q : ℚ) : WithTop ℚ := (q : WithTop ℚ)

/-- `calculateAverage(solves, count)` from `Timer.tsx` (identical in the
`useSessions` hook): trimmed rolling mean, `null` when fewer than `count`
solves or when the window holds 2+ DNFs. -/
def calculateAverage (solves : List SolveRecord) (count : ℕ) : Option ℚ :=
  if solves.length < count then none else
  let recentSolves := solves.take count
  let dnfCount := (recentSolves.filter (fun s => s.state == SolveState.dnf)).length
  if 2 ≤ dnfCount then none else
  let actualTimes := recentSolves.map effTime
  let sorted := sortTimes actualTimes
  let trimmed := (sorted.drop 1).dropLast
  let validTimes := finitePart trimmed
  if validTimes.length = 0 then none
  else some (validTimes.sum / (validTimes.length : ℚ))

/-- `calculateBestWorstPossible(solves, count)` from `Timer.tsx`.
`sorted.slice(0, -2)` is `take (length - 2)`, `sorted.slice(2)` is
`drop 2`. -/
def calculateBestWorstPossible (solves : List SolveRecord) (count : ℕ) :
    Option ℚ × Option ℚ :=
  if solves.length < count then (none, none) else
  let recentSolves := solves.take count
  let dnfCount := (recentSolves.filter (fun s => s.state == SolveState.dnf)).length
  if 2 ≤ dnfCount then (none, none) else
  let actualTimes := recentSolves.map effTime
  let sorted := sortTimes actualTimes
  let bestTrimmed := finitePart (sorted.take (sorted.length - 2))
  let best := if 0 < bestTrimmed.length
    then some (bestTrimmed.sum / (bestTrimmed.length : ℚ)) else none
  let worstTrimmed := finitePart (sorted.drop 2)
  let worst := if 0 < worstTrimmed.length
    then some (worstTrimmed.sum / (worstTrimmed.length : ℚ)) else none
  (best, worst)

/-- `calculateSessionMean(solves)` from `Timer.tsx`: untrimmed mean over
the non-DNF solves, `null` when there are none. -/
def calculateSessionMean (solves : List SolveRecord) : Option ℚ :=
  if solves.length = 0 then none else
  let validSolves := solves.filter (fun s => !(s.state == SolveState.dnf))
  if validSolves.length = 0 then none else
  let actualTimes := validSolves.map
    (fun s => if s.state = .plus2 then s.time + 2000 else s.time)
  some (actualTimes.sum / (actualTimes.length : ℚ))

section StoreOps

variable {α : Type}

/-- `` `session-${Date.now()}` `` — the id generated for a new session. -/
def sessionIdFor (now : ℤ) : String :=
  "session-" ++ toString now

/-- The fresh default session created at initialization and by
`deleteSession` when no session remains. -/
def defaultSession (α : Type) (now : ℤ) : Session α :=
  { id := sessionIdFor now
    name := "Default Session"
    createdAt := now
    isActive := true
    solves := [] }

/-- The store holding exactly the fresh default session (the
`useSessions` initialization branch for empty storage, and the whole-store
replacement in `deleteSession`). -/
def defaultStore (α : Type) (now : ℤ) : SessionManager α :=
  { sessions := [defaultSession α now]
    activeSessionId := sessionIdFor now
    lastUpdated := now }

/-- `createSession(name)`: unconditionally appends a new inactive empty
session (there is no name validation inside the hook). -/
def createSession (now : ℤ) (name : String) (m : SessionManager α) :
    SessionManager α :=
  { m with
    sessions := m.sessions ++
      [{ id := sessionIdFor now
         name := name
         createdAt := now
         isActive := false
         solves := [] }]
    lastUpdated := now }

/-- `switchSession(sessionId)`: sets the pointer to the given id and
recomputes every `isActive` flag as `session.id === sessionId`. -/
def switchSession (now : ℤ) (sessionId : String) (m : SessionManager α) :
    SessionManager α :=
  { m with
    activeSessionId := sessionId
    sessions := m.sessions.map (fun session =>
      { session with isActive := session.id == sessionId })
    lastUpdated := now }

/-- `deleteSession(sessionId)`: filters the session out; if nothing
remains, replaces the whole store with a fresh default session; otherwise
reassigns the active pointer (to the first remaining session when the
active one was deleted) and recomputes the `isActive` flags. -/
def deleteSession (now : ℤ) (sessionId : String) (m : SessionManager α) :
    SessionManager α :=
  let remainingSessions := m.sessions.filter (fun s => !(s.id == sessionId))
  match remainingSessions with
  | [] => defaultStore α now
  | first :: rest =>
    let newActiveSessionId :=
      if sessionId = m.activeSessionId then first.id else m.activeSessionId
    { m with
      sessions := (first :: rest).map (fun session =>
        { session with isActive := session.id == newActiveSessionId })
      activeSessionId := newActiveSessionId
      lastUpdated := now }

/-- `renameSession(sessionId, newName)`: in-place rename of the matching
session. -/
def renameSession (now : ℤ) (sessionId newName : String)
    (m : SessionManager α) : SessionManager α :=
  { m with
    sessions := m.sessions.map (fun session =>
      if session.id = sessionId then { session with name := newName }
      else session)
    lastUpdated := now }

/-- `sessions.find(s => s.id === activeSessionId) || null` — the
`getActiveSession` accessor. -/
def getActiveSession (m : SessionManager α) : Option (Session α) :=
  m.sessions.find? (fun s => s.id == m.activeSessionId)

end StoreOps

/-- The whole-session average recompute shared by the three solve
mutations: element `i` of the list gets `ao5`/`ao12` computed from
`updatedSolves.slice(i)`, i.e. from the suffix starting at itself, which
the structural recursion hands to each head. -/
def recomputeAverages : List SolveRecord → List SolveRecord
  | [] => []
  | s :: rest =>
    { s with
      ao5 := calculateAverage (s :: rest) 5
      ao12 := calculateAverage (s :: rest) 12 } :: recomputeAverages rest

/-- `addSolveToActiveSession(solve)`: no-op when the active session is not
found; otherwise prepends the solve and recomputes every record's cached
averages. -/
def addSolveToActiveSession (now : ℤ) (solve : SolveRecord)
    (m : SessionManager SolveRecord) : SessionManager SolveRecord :=
  match m.sessions.find? (fun s => s.id == m.activeSessionId) with
  | none => m
  | some activeSession =>
    let updatedSolves := solve :: activeSession.solves
    let solvesWithAverages := recomputeAverages updatedSolves
    { m with
      sessions := m.sessions.map (fun session =>
        if session.id = m.activeSessionId
        then { session with solves := solvesWithAverages }
        else session)
      lastUpdated := now }

/-- `Partial<SolveRecord>`: each field optionally overridden by the spread
`{ ...solve, ...updates }`. -/
structure SolveUpdates where
  id : Option String := none
  time : Option ℚ := none
  scramble : Option String := none
  timestamp : Option ℤ := none
  state : Option SolveState := none
  ao5 : Option (Option ℚ) := none
  ao12 : Option (Option ℚ) := none
  inspectionTime : Option (Option ℚ) := none
  puzzleType : Option (Option String) := none

/-- `{ ...solve, ...updates }`. -/
def applyUpdates (u : SolveUpdates) (s : SolveRecord) : SolveRecord :=
  { id := u.id.getD s.id
    time := u.time.getD s.time
    scramble := u.scramble.getD s.scramble
    timestamp := u.timestamp.getD s.timestamp
    state := u.state.getD s.state
    ao5 := u.ao5.getD s.ao5
    ao12 := u.ao12.getD s.ao12
    inspectionTime := u.inspectionTime.getD s.inspectionTime
    puzzleType := u.puzzleType.getD s.puzzleType }

/-- `updateSolveInActiveSession(solveId, updates)`: merges the partial
fields into the matching record of the active session, then recomputes all
cached averages. -/
def updateSolveInActiveSession (now : ℤ) (solveId : String)
    (updates : SolveUpdates) (m : SessionManager SolveRecord) :
    SessionManager SolveRecord :=
  match m.sessions.find? (fun s => s.id == m.activeSessionId) with
  | none => m
  | some activeSession =>
    let updatedSolves := activeSession.solves.map (fun solve =>
      if solve.id = solveId then applyUpdates updates solve else solve)
    let solvesWithAverages := recomputeAverages updatedSolves
    { m with
      sessions := m.sessions.map (fun session =>
        if session.id = m.activeSessionId
        then { session with solves := solvesWithAverages }
        else session)
      lastUpdated := now }

/-- `deleteSolveFromActiveSession(solveId)`: removes the matching record,
then recomputes all cached averages. -/
def deleteSolveFromActiveSession (now : ℤ) (solveId : String)
    (m : SessionManager SolveRecord) : SessionManager SolveRecord :=
  match m.sessions.find? (fun s => s.id == m.activeSessionId) with
  | none => m
  | some activeSession =>
    let updatedSolves := activeSession.solves.filter (fun s => !(s.id == solveId))
    let solvesWithAverages := recomputeAverages updatedSolves
    { m with
      sessions := m.sessions.map (fun session =>
        if session.id = m.activeSessionId
        then { session with solves := solvesWithAverages }
        else session)
      lastUpdated := now }

/-- `clearActiveSession()`: empties the active session's solve list. -/
def clearActiveSession (now : ℤ) (m : SessionManager SolveRecord) :
    SessionManager SolveRecord :=
  { m with
    sessions := m.sessions.map (fun session =>
      if session.id = m.activeSessionId
      then { session with solves := [] }
      else session)
    lastUpdated := now }

/-- One element of the value stored under the legacy history key: either a
raw numeric time (the oldest format) or a solve-like record. -/
inductive LegacyEntry where
  | num (t : ℚ)
  | record (r : SolveRecord)
deriving DecidableEq

/-- The `useSessions` initialization effect: use the saved new-format
store when present; otherwise, when the legacy key holds an array, build a
single active default session whose `solves` field is **the legacy array
itself, verbatim** (no per-entry conversion happens on this path);
otherwise seed a fresh default store. -/
def useSessionsInit (saved : Option (SessionManager LegacyEntry))
    (legacyHistory : Option (List LegacyEntry)) (now : ℤ) :
    SessionManager LegacyEntry :=
  match saved with
  | some parsed => parsed
  | none =>
    match legacyHistory with
    | some legacySolves =>
      { sessions :=
          [{ id := sessionIdFor now
             name := "Default Session"
             createdAt := now
             isActive := true
             solves := legacySolves }]
        activeSessionId := sessionIdFor now
        lastUpdated := now }
    | none => defaultStore LegacyEntry now

/-- The numeric-array branch of `Timer.tsx`'s own legacy-history loader:
each raw number becomes a synthetic record with a placeholder scramble,
`state = 'ok'` and timestamp `Date.now() - index * 60000`.  This feeds the
component-local `solveHistory` state, not the session store. -/
def migrateNumericHistory (now : ℤ) (times : List ℚ) : List SolveRecord :=
  times.enum.map (fun p =>
    { id := "migrated-" ++ toString now ++ "-" ++ toString p.1
      time := p.2
      scramble := "Unknown scramble (migrated)"
      timestamp := now - p.1 * 60000
      state := .ok })

/-- `String.prototype.trim()`: strip leading and trailing whitespace,
modelled over the character list. -/
def trimString (s : String) : String :=
  String.mk (((s.data.dropWhile Char.isWhitespace).reverse.dropWhile
    Char.isWhitespace).reverse)

/-- `handleCreateSession` from `SessionManager.tsx`: the UI caller trims
the input and only invokes `createSession` when the trimmed name is
non-empty. -/
def handleCreateSession (now : ℤ) (newSessionName : String)
    (m : SessionManager SolveRecord) : SessionManager SolveRecord :=
  if trimString newSessionName = "" then m
  else createSession now (trimString newSessionName) m

/-- The store invariant of the spec: exactly one session is flagged
active, and that session's id is the store's `activeSessionId`. -/
def storeInv {α : Type} (m : SessionManager α) : Prop :=
  m.sessions.countP (fun s => s.isActive) = 1 ∧
  ∀ s ∈ m.sessions, s.isActive = true → s.id = m.activeSessionId


/-- A solve record with only the fields every solve carries; used to build
concrete inputs. -/
def mkSolve (i : String) (t : ℚ) (st : SolveState) : SolveRecord :=
  { id := i, time := t, scramble := "", timestamp := 0, state := st }

/-- The penalized effective time of a non-DNF solve as a plain number:
`solve.state === 'plus2' ? solve.time + 2000 : solve.time`. -/
def effectiveTimeQ (s : SolveRecord) : ℚ :=
  if s.state = .plus2 then s.time + 2000 else s.time

/-- Number of DNF solves among the `count` most recent ones — the
`dnfCount` computed inside `calculateAverage`. -/
def windowDnfCount (solves : List SolveRecord) (count : ℕ) : ℕ :=
  ((solves.take count).filter (fun s => s.state == SolveState.dnf)).length

/-- A record with its cached averages blanked, for comparing solve lists
up to the recomputed `ao5`/`ao12` fields. -/
def stripAverages (s : SolveRecord) : SolveRecord :=
  { s with ao5 := none, ao12 := none }

/-- C7: `calculateSessionMean` is the untrimmed mean of penalized
effective times over exactly the non-DNF solves, and is the no-result
marker exactly when there is no non-DNF solve (in particular for the
empty and the all-DNF list). -/
theorem calculateSessionMean_nonDnf_mean (solves : List SolveRecord) :
    calculateSessionMean solves =
      if solves.filter (fun s => !(s.state == SolveState.dnf)) = []
      then none
      else some (((solves.filter (fun s => !(s.state == SolveState.dnf))).map
          (fun s => effectiveTimeQ s)).sum /
        (((solves.filter (fun s => !(s.state == SolveState.dnf))).length : ℚ))) := by
  unfold calculateSessionMean
  rcases eq_or_ne solves [] with rfl | hne
  · simp
  · have hlen : ¬ solves.length = 0 := by
      simpa [List.length_eq_zero] using hne
    by_cases hf : solves.filter (fun s => !(s.state == SolveState.dnf)) = []
    · simp [hlen, hf]
    · have hfl : ¬ (solves.filter (fun s => !(s.state == SolveState.dnf))).length = 0 := by
        simpa [List.length_eq_zero] using hf
      simp [hlen, hf, hfl, effectiveTimeQ]

/-- C3 (code bug): `calculateAverage` returns the same value — `null` —
for "not enough solves" and for "2 or more DNFs in the window", so the two
outcomes cannot be told apart from the returned value, contradicting the
record-field documentation (`null` if DNF, `undefined` if not enough
solves). -/
theorem calculateAverage_conflates_markers :
    calculateAverage [mkSolve "a" 10 .ok] 5 = none ∧
    calculateAverage [mkSolve "a" 10 .ok, mkSolve "b" 20 .ok,
      mkSolve "c" 30 .ok, mkSolve "d" 40 .dnf, mkSolve "e" 50 .dnf] 5
      = none := by
  decide

/-- C4 (code bug): when no new-format store exists and the legacy key
holds the flat numeric array `[5000, 6000]`, the `useSessions` migration
puts the two raw numbers into the default session's `solves` verbatim —
no synthetic `ok`-state records with decreasing timestamps are built on
this path. -/
theorem legacyMigration_copies_raw_numbers :
    useSessionsInit none (some [LegacyEntry.num 5000, LegacyEntry.num 6000]) 0 =
      { sessions := [{ id := "session-0", name := "Default Session",
                       createdAt := 0, isActive := true,
                       solves := [LegacyEntry.num 5000,
                                  LegacyEntry.num 6000] }],
        activeSessionId := "session-0",
        lastUpdated := 0 } := by
  decide

/-- C5: `deleteSession` never leaves the store with zero sessions, and
deleting the only remaining session replaces the store's content with
exactly one fresh default session: empty, active, and referenced by
`activeSessionId`. -/
theorem deleteSession_never_empty (α : Type) (now : ℤ) (sid : String)
    (m : SessionManager α) (s : Session α) :
    (deleteSession now sid m).sessions ≠ [] ∧
    (m.sessions = [s] → s.id = sid →
      (deleteSession now sid m).sessions = [defaultSession α now] ∧
      (defaultSession α now).solves = [] ∧
      (defaultSession α now).isActive = true ∧
      (deleteSession now sid m).activeSessionId = (defaultSession α now).id) := by
  cases h : m.sessions.filter (fun s => !(s.id == sid)) with
  | nil =>
    constructor
    · simp [deleteSession, h, defaultStore]
    · intro hm hid
      simp [deleteSession, h, defaultStore, defaultSession]
  | cons first rest =>
    constructor
    · simp [deleteSession, h]
    · intro hm hid
      rw [hm] at h
      simp [hid] at h

/-- C8 (counterexample): calling `createSession` with the whitespace-only
name `" "` is not a no-op — a new session is appended. -/
theorem createSession_whitespace_appends :
    (createSession 0 " " (defaultStore SolveRecord 0)).sessions.length = 2 ∧
    (defaultStore SolveRecord 0).sessions.length = 1 := by
  decide

/-- C8 (amended): `createSession` itself performs no name validation and
appends a new inactive empty session for every name, whitespace-only names
included; the whitespace guard lives in the UI caller
(`handleCreateSession`), which does not invoke `createSession` when the
trimmed input is empty. -/
theorem createSession_appends_unconditionally :
    (∀ (α : Type) (now : ℤ) (name : String) (m : SessionManager α),
      (createSession now name m).sessions = m.sessions ++
        [{ id := sessionIdFor now, name := name, createdAt := now,
           isActive := false, solves := [] }] ∧
      (createSession now name m).activeSessionId = m.activeSessionId) ∧
    (∀ (now : ℤ) (input : String) (m : SessionManager SolveRecord),
      trimString input = "" → handleCreateSession now input m = m) := by
  constructor
  · intro α now name m
    exact ⟨rfl, rfl⟩
  · intro now input m h
    simp [handleCreateSession, h]

/-- Witness for `createSession_appends_unconditionally` at concrete
inputs. -/
theorem createSession_appends_unconditionally_witness :
    ((createSession 0 " " (defaultStore SolveRecord 0)).sessions =
      (defaultStore SolveRecord 0).sessions ++
        [{ id := sessionIdFor 0, name := " ", createdAt := 0,
           isActive := false, solves := [] }] ∧
      (createSession 0 " " (defaultStore SolveRecord 0)).activeSessionId =
        (defaultStore SolveRecord 0).activeSessionId) ∧
    handleCreateSession 0 "  " (defaultStore SolveRecord 0) =
      defaultStore SolveRecord 0 := by
  exact ⟨createSession_appends_unconditionally.1 SolveRecord 0 " " _,
    createSession_appends_unconditionally.2 0 "  " _ (by decide)⟩

/-- C9 (counterexample): switching to the id `"nope"`, which matches no
session of the fresh default store, does not keep the prior
`activeSessionId`, and it clears the active flag of every session. -/
theorem switchSession_missing_id_counterexample :
    (switchSession 1 "nope" (defaultStore SolveRecord 0)).activeSessionId ≠
      (defaultStore SolveRecord 0).activeSessionId ∧
    (switchSession 1 "nope" (defaultStore SolveRecord 0)).sessions.countP
      (fun s => s.isActive) = 0 ∧
    (defaultStore SolveRecord 0).sessions.countP (fun s => s.isActive) = 1 := by
  decide

/-- C9 (amended): `switchSession` with an id matching no session still
overwrites `activeSessionId` with the missing id and sets every session's
`isActive` flag to `false` (refreshing `lastUpdated`); only the ids,
names, creation times and solve lists are untouched. -/
theorem switchSession_missing_id_spec (α : Type) (now : ℤ) (sid : String)
    (m : SessionManager α) (h : ∀ s ∈ m.sessions, ¬ s.id = sid) :
    (switchSession now sid m).activeSessionId = sid ∧
    (switchSession now sid m).sessions =
      m.sessions.map (fun s => { s with isActive := false }) ∧
    (switchSession now sid m).lastUpdated = now := by
  refine ⟨rfl, ?_, rfl⟩
  unfold switchSession
  simp only
  apply List.map_congr_left
  intro s hs
  have : (s.id == sid) = false := by
    simpa using h s hs
  rw [this]

/-- Witness for `switchSession_missing_id_spec` on the fresh default
store and the absent id `"nope"`. -/
theorem switchSession_missing_id_spec_witness :
    (switchSession 1 "nope" (defaultStore SolveRecord 0)).activeSessionId = "nope" ∧
    (switchSession 1 "nope" (defaultStore SolveRecord 0)).sessions =
      (defaultStore SolveRecord 0).sessions.map
        (fun s => { s with isActive := false }) ∧
    (switchSession 1 "nope" (defaultStore SolveRecord 0)).lastUpdated = 1 :=
  switchSession_missing_id_spec SolveRecord 1 "nope" (defaultStore SolveRecord 0)
    (by decide)

/-- The id/active-flag projection of a session list; `storeInv` depends
only on it and on the active pointer. -/
def flagsOf {α : Type} (l : List (Session α)) : List (String × Bool) :=
  l.map (fun s => (s.id, s.isActive))

theorem storeInv_iff {α : Type} (m : SessionManager α) :
    storeInv m ↔
      ((flagsOf m.sessions).countP (fun p => p.2) = 1 ∧
        ∀ p ∈ flagsOf m.sessions, p.2 = true → p.1 = m.activeSessionId) := by
  constructor
  · rintro ⟨h1, h2⟩
    refine ⟨?_, ?_⟩
    · rw [flagsOf, List.countP_map]
      exact h1
    · intro p hp hp2
      rw [flagsOf, List.mem_map] at hp
      obtain ⟨s, hs, rfl⟩ := hp
      exact h2 s hs hp2
  · rintro ⟨h1, h2⟩
    refine ⟨?_, ?_⟩
    · rw [flagsOf, List.countP_map] at h1
      exact h1
    · intro s hs hact
      exact h2 (s.id, s.isActive) (List.mem_map.2 ⟨s, hs, rfl⟩) hact

theorem storeInv_of_flags_eq {α β : Type} (m : SessionManager α)
    (m' : SessionManager β) (hact : m'.activeSessionId = m.activeSessionId)
    (hfl : flagsOf m'.sessions = flagsOf m.sessions) :
    storeInv m → storeInv m' := by
  rw [storeInv_iff, storeInv_iff, hact, hfl]
  exact id

theorem flagsOf_map_eq {α : Type} (l : List (Session α))
    (f : Session α → Session α)
    (h : ∀ s ∈ l, (f s).id = s.id ∧ (f s).isActive = s.isActive) :
    flagsOf (l.map f) = flagsOf l := by
  unfold flagsOf
  rw [List.map_map]
  exact List.map_congr_left fun s hs => by simp [(h s hs).1, (h s hs).2]

theorem storeInv_defaultStore (α : Type) (now : ℤ) :
    storeInv (defaultStore α now) := by
  constructor
  · rfl
  · intro s hs _
    simp [defaultStore] at hs
    simp [hs, defaultSession, defaultStore]

theorem storeInv_createSession {α : Type} (now : ℤ) (name : String)
    (m : SessionManager α) (h : storeInv m) :
    storeInv (createSession now name m) := by
  obtain ⟨h1, h2⟩ := h
  constructor
  · simpa [createSession, List.countP_append] using h1
  · intro s hs hact
    simp only [createSession, List.mem_append, List.mem_singleton] at hs
    rcases hs with hs | rfl
    · exact h2 s hs hact
    · simp at hact

theorem storeInv_switchSession {α : Type} (now : ℤ) (sid : String)
    (m : SessionManager α)
    (h : m.sessions.countP (fun s => s.id == sid) = 1) :
    storeInv (switchSession now sid m) := by
  constructor
  · show (m.sessions.map fun session =>
      { session with isActive := session.id == sid }).countP _ = 1
    rw [List.countP_map]
    exact h
  · intro s hs hact
    simp only [switchSession, List.mem_map] at hs
    obtain ⟨t, _, rfl⟩ := hs
    simpa [switchSession] using hact

theorem storeInv_mapSolves {α : Type} (m : SessionManager α)
    (newSolves : List α) (now : ℤ) (h : storeInv m) :
    storeInv { m with
      sessions := m.sessions.map (fun session =>
        if session.id = m.activeSessionId
        then { session with solves := newSolves }
        else session)
      lastUpdated := now } := by
  refine storeInv_of_flags_eq m _ rfl ?_ h
  exact flagsOf_map_eq _ _ fun s _ => by
    by_cases hid : s.id = m.activeSessionId <;> simp [hid]

theorem storeInv_renameSession {α : Type} (now : ℤ) (sid newName : String)
    (m : SessionManager α) (h : storeInv m) :
    storeInv (renameSession now sid newName m) := by
  refine storeInv_of_flags_eq m _ rfl ?_ h
  exact flagsOf_map_eq _ _ fun s _ => by
    by_cases hid : s.id = sid <;> simp [hid]

theorem countP_key_eq_one {β : Type} (key : β → String) :
    ∀ (l : List β), (l.map key).Nodup → ∀ x ∈ l.map key,
      l.countP (fun s => key s == x) = 1
  | [] => by
    intro _ x hx
    simp at hx
  | b :: t => by
    intro hnd x hx
    simp only [List.map_cons, List.nodup_cons] at hnd
    obtain ⟨hb, hndt⟩ := hnd
    simp only [List.map_cons, List.mem_cons] at hx
    rw [List.countP_cons]
    rcases hx with rfl | hx
    · have hz : t.countP (fun s => key s == key b) = 0 := by
        rw [List.countP_eq_zero]
        intro s hs
        simp only [beq_iff_eq]
        intro he
        exact hb (he ▸ List.mem_map_of_mem key hs)
      simp [hz]
    · have hne : ¬ key b = x := fun he => hb (he ▸ hx)
      have ht := countP_key_eq_one key t hndt x hx
      simp [ht, hne]

theorem storeInv_deleteSession {α : Type} (now : ℤ) (sid : String)
    (m : SessionManager α) (h : storeInv m)
    (hnd : (m.sessions.map (fun s => s.id)).Nodup) :
    storeInv (deleteSession now sid m) := by
  cases hres : m.sessions.filter (fun s => !(s.id == sid)) with
  | nil =>
    unfold deleteSession
    rw [hres]
    exact storeInv_defaultStore α now
  | cons first rest =>
    have hndR : ((first :: rest).map (fun s => s.id)).Nodup := by
      rw [← hres]
      exact hnd.sublist ((List.filter_sublist _).map _)
    have hcount := countP_key_eq_one (fun s : Session α => s.id)
      (first :: rest) hndR
    have key : (first :: rest).countP (fun s =>
        s.id == (if sid = m.activeSessionId then first.id
                 else m.activeSessionId)) = 1 := by
      by_cases hsid : sid = m.activeSessionId
      · simp only [hsid, if_pos rfl]
        exact hcount first.id (by simp)
      · simp only [if_neg hsid]
        obtain ⟨h1, h2⟩ := h
        have hex : ∃ a ∈ m.sessions, a.isActive := by
          have hpos : 0 < m.sessions.countP (fun s => s.isActive) := by omega
          simpa [List.countP_pos_iff] using hpos
        obtain ⟨a, ha, hact⟩ := hex
        have haid : a.id = m.activeSessionId := h2 a ha hact
        have hamem : a ∈ first :: rest := by
          rw [← hres, List.mem_filter]
          refine ⟨ha, ?_⟩
          have : ¬ a.id = sid := by
            rw [haid]
            exact fun he => hsid he.symm
          simp [this]
        exact hcount m.activeSessionId
          (List.mem_map.2 ⟨a, hamem, haid⟩)
    have hsess : (deleteSession now sid m).sessions =
        (first :: rest).map (fun session =>
          { session with isActive := session.id ==
              (if sid = m.activeSessionId then first.id
               else m.activeSessionId) }) := by
      simp [deleteSession, hres]
    have hactid : (deleteSession now sid m).activeSessionId =
        (if sid = m.activeSessionId then first.id
         else m.activeSessionId) := by
      simp [deleteSession, hres]
    constructor
    · rw [hsess, List.countP_map]
      exact key
    · intro s hs hact
      rw [hsess] at hs
      rw [hactid]
      simp only [List.mem_map] at hs
      obtain ⟨t, _, rfl⟩ := hs
      simpa using hact

theorem storeInv_addSolve (now : ℤ) (solve : SolveRecord)
    (m : SessionManager SolveRecord) (h : storeInv m) :
    storeInv (addSolveToActiveSession now solve m) := by
  unfold addSolveToActiveSession
  cases m.sessions.find? (fun s => s.id == m.activeSessionId) with
  | none => exact h
  | some a => exact storeInv_mapSolves m _ now h

theorem storeInv_updateSolve (now : ℤ) (solveId : String)
    (u : SolveUpdates) (m : SessionManager SolveRecord) (h : storeInv m) :
    storeInv (updateSolveInActiveSession now solveId u m) := by
  unfold updateSolveInActiveSession
  cases m.sessions.find? (fun s => s.id == m.activeSessionId) with
  | none => exact h
  | some a => exact storeInv_mapSolves m _ now h

theorem storeInv_deleteSolve (now : ℤ) (solveId : String)
    (m : SessionManager SolveRecord) (h : storeInv m) :
    storeInv (deleteSolveFromActiveSession now solveId m) := by
  unfold deleteSolveFromActiveSession
  cases m.sessions.find? (fun s => s.id == m.activeSessionId) with
  | none => exact h
  | some a => exact storeInv_mapSolves m _ now h

theorem storeInv_clearActive (now : ℤ) (m : SessionManager SolveRecord)
    (h : storeInv m) : storeInv (clearActiveSession now m) :=
  storeInv_mapSolves m [] now h

theorem storeInv_init (legacy : Option (List LegacyEntry)) (now : ℤ) :
    storeInv (useSessionsInit none legacy now) := by
  cases legacy with
  | none => exact storeInv_defaultStore LegacyEntry now
  | some entries =>
    constructor
    · rfl
    · intro s hs _
      simp [useSessionsInit] at hs
      simp [hs, useSessionsInit]

/-- C1 (counterexample): starting from the freshly initialized store and
switching to the id `"nope"`, which matches no session, yields a store in
which no session is active — the exactly-one-active invariant fails after
a mutating operation whose argument matches no session. -/
theorem activeInvariant_counterexample :
    ¬ storeInv (switchSession 1 "nope" (useSessionsInit none none 0)) := by
  intro h
  obtain ⟨h1, _⟩ := h
  revert h1
  decide

/-- C1 (amended): the exactly-one-active-session invariant (`storeInv`)
holds after initialization from empty or legacy storage, and is preserved
by every mutating operation except `switchSession` with an id matching no
session: `createSession`, `renameSession` and the four solve operations
preserve it unconditionally, `switchSession` preserves it exactly when the
id matches one session, and `deleteSession` preserves it when session ids
are pairwise distinct (as produced by non-colliding id generation). -/
theorem activeInvariant_preserved :
    (∀ (legacy : Option (List LegacyEntry)) (now : ℤ),
      storeInv (useSessionsInit none legacy now)) ∧
    (∀ (α : Type) (now : ℤ) (name : String) (m : SessionManager α),
      storeInv m → storeInv (createSession now name m)) ∧
    (∀ (α : Type) (now : ℤ) (sid : String) (m : SessionManager α),
      m.sessions.countP (fun s => s.id == sid) = 1 →
      storeInv (switchSession now sid m)) ∧
    (∀ (α : Type) (now : ℤ) (sid : String) (m : SessionManager α),
      storeInv m → (m.sessions.map (fun s => s.id)).Nodup →
      storeInv (deleteSession now sid m)) ∧
    (∀ (α : Type) (now : ℤ) (sid newName : String) (m : SessionManager α),
      storeInv m → storeInv (renameSession now sid newName m)) ∧
    (∀ (now : ℤ) (solve : SolveRecord) (m : SessionManager SolveRecord),
      storeInv m → storeInv (addSolveToActiveSession now solve m)) ∧
    (∀ (now : ℤ) (solveId : String) (u : SolveUpdates)
      (m : SessionManager SolveRecord),
      storeInv m → storeInv (updateSolveInActiveSession now solveId u m)) ∧
    (∀ (now : ℤ) (solveId : String) (m : SessionManager SolveRecord),
      storeInv m → storeInv (deleteSolveFromActiveSession now solveId m)) ∧
    (∀ (now : ℤ) (m : SessionManager SolveRecord),
      storeInv m → storeInv (clearActiveSession now m)) :=
  ⟨storeInv_init,
   fun _ now name m h => storeInv_createSession now name m h,
   fun _ now sid m h => storeInv_switchSession now sid m h,
   fun _ now sid m h hnd => storeInv_deleteSession now sid m h hnd,
   fun _ now sid newName m h => storeInv_renameSession now sid newName m h,
   fun now solve m h => storeInv_addSolve now solve m h,
   fun now solveId u m h => storeInv_updateSolve now solveId u m h,
   fun now solveId m h => storeInv_deleteSolve now solveId m h,
   fun now m h => storeInv_clearActive now m h⟩

/-- Witness for `activeInvariant_preserved`: every hypothesis discharged
at concrete stores. -/
theorem activeInvariant_preserved_witness :
    storeInv (useSessionsInit none none 0) ∧
    storeInv (createSession 1 "New" (defaultStore SolveRecord 0)) ∧
    storeInv (switchSession 1 "session-0" (defaultStore SolveRecord 0)) ∧
    storeInv (deleteSession 1 "other" (defaultStore SolveRecord 0)) ∧
    storeInv (renameSession 1 "session-0" "Renamed"
      (defaultStore SolveRecord 0)) ∧
    storeInv (addSolveToActiveSession 1 (mkSolve "s1" 10 .ok)
      (defaultStore SolveRecord 0)) ∧
    storeInv (updateSolveInActiveSession 1 "s1" {}
      (defaultStore SolveRecord 0)) ∧
    storeInv (deleteSolveFromActiveSession 1 "s1"
      (defaultStore SolveRecord 0)) ∧
    storeInv (clearActiveSession 1 (defaultStore SolveRecord 0)) :=
  ⟨activeInvariant_preserved.1 none 0,
   activeInvariant_preserved.2.1 SolveRecord 1 "New" _
     (storeInv_defaultStore SolveRecord 0),
   activeInvariant_preserved.2.2.1 SolveRecord 1 "session-0" _ (by decide),
   activeInvariant_preserved.2.2.2.1 SolveRecord 1 "other" _
     (storeInv_defaultStore SolveRecord 0) (by decide),
   activeInvariant_preserved.2.2.2.2.1 SolveRecord 1 "session-0" "Renamed" _
     (storeInv_defaultStore SolveRecord 0),
   activeInvariant_preserved.2.2.2.2.2.1 1 (mkSolve "s1" 10 .ok) _
     (storeInv_defaultStore SolveRecord 0),
   activeInvariant_preserved.2.2.2.2.2.2.1 1 "s1" {} _
     (storeInv_defaultStore SolveRecord 0),
   activeInvariant_preserved.2.2.2.2.2.2.2.1 1 "s1" _
     (storeInv_defaultStore SolveRecord 0),
   activeInvariant_preserved.2.2.2.2.2.2.2.2 1 _
     (storeInv_defaultStore SolveRecord 0)⟩

/-- Witness for `deleteSession_never_empty` on a one-session store whose
only session is the one being deleted. -/
theorem deleteSession_never_empty_witness :
    (deleteSession 1 "session-0" (defaultStore SolveRecord 0)).sessions ≠ [] ∧
    ((defaultStore SolveRecord 0).sessions = [defaultSession SolveRecord 0] →
      (defaultSession SolveRecord 0).id = "session-0" →
      (deleteSession 1 "session-0"
        (defaultStore SolveRecord 0)).sessions =
          [defaultSession SolveRecord 1] ∧
      (defaultSession SolveRecord 1).solves = [] ∧
      (defaultSession SolveRecord 1).isActive = true ∧
      (deleteSession 1 "session-0"
        (defaultStore SolveRecord 0)).activeSessionId =
          (defaultSession SolveRecord 1).id) :=
  deleteSession_never_empty SolveRecord 1 "session-0"
    (defaultStore SolveRecord 0) (defaultSession SolveRecord 0)

/-- The part of a record `calculateAverage` actually reads: raw time and
penalty state. -/
def solveKey (s : SolveRecord) : ℚ × SolveState := (s.time, s.state)

/-- `effTime` reformulated on keys. -/
def keyEffTime (p : ℚ × SolveState) : WithTop ℚ :=
  match p.2 with
  | .dnf => ⊤
  | .plus2 => (↑(p.1 + 2000) : WithTop ℚ)
  | .ok => (↑p.1 : WithTop ℚ)

theorem keyEffTime_comp_solveKey : keyEffTime ∘ solveKey = effTime := by
  funext s
  cases hs : s.state <;> simp [keyEffTime, solveKey, effTime, hs]

theorem calculateAverage_congr {l₁ l₂ : List SolveRecord}
    (h : l₁.map solveKey = l₂.map solveKey) (c : ℕ) :
    calculateAverage l₁ c = calculateAverage l₂ c := by
  have hlen : l₁.length = l₂.length := by
    have := congrArg List.length h
    simpa using this
  have htake : (l₁.take c).map solveKey = (l₂.take c).map solveKey := by
    rw [List.map_take, List.map_take, h]
  have hdnf : ((l₁.take c).filter
        (fun s => s.state == SolveState.dnf)).length =
      ((l₂.take c).filter (fun s => s.state == SolveState.dnf)).length := by
    rw [← List.countP_eq_length_filter, ← List.countP_eq_length_filter]
    have e1 : List.countP (fun s => s.state == SolveState.dnf) (l₁.take c) =
        List.countP (fun p : ℚ × SolveState => p.2 == SolveState.dnf)
          ((l₁.take c).map solveKey) := by
      rw [List.countP_map]
      rfl
    have e2 : List.countP (fun s => s.state == SolveState.dnf) (l₂.take c) =
        List.countP (fun p : ℚ × SolveState => p.2 == SolveState.dnf)
          ((l₂.take c).map solveKey) := by
      rw [List.countP_map]
      rfl
    rw [e1, e2, htake]
  have heff : (l₁.take c).map effTime = (l₂.take c).map effTime := by
    rw [← keyEffTime_comp_solveKey, ← List.map_map, ← List.map_map, htake]
  simp only [calculateAverage]
  rw [hlen, hdnf, heff]

theorem recomputeAverages_length (l : List SolveRecord) :
    (recomputeAverages l).length = l.length := by
  induction l with
  | nil => rfl
  | cons s rest ih => simp [recomputeAverages, ih]

theorem recomputeAverages_strip (l : List SolveRecord) :
    (recomputeAverages l).map stripAverages = l.map stripAverages := by
  induction l with
  | nil => rfl
  | cons s rest ih => simp [recomputeAverages, stripAverages, ih]

theorem recomputeAverages_key (l : List SolveRecord) :
    (recomputeAverages l).map solveKey = l.map solveKey := by
  induction l with
  | nil => rfl
  | cons s rest ih => simp [recomputeAverages, solveKey, ih]

theorem recomputeAverages_get :
    ∀ (l : List SolveRecord) (i : ℕ) (hi : i < (recomputeAverages l).length),
      ((recomputeAverages l).get ⟨i, hi⟩).ao5 =
        calculateAverage (l.drop i) 5 ∧
      ((recomputeAverages l).get ⟨i, hi⟩).ao12 =
        calculateAverage (l.drop i) 12
  | [], i, hi => by simp [recomputeAverages] at hi
  | s :: rest, 0, hi => by
    constructor <;> rfl
  | s :: rest, i + 1, hi => by
    have hi' : i < (recomputeAverages rest).length := by
      simpa [recomputeAverages] using hi
    have ih := recomputeAverages_get rest i hi'
    simpa [recomputeAverages] using ih

theorem calculateAverage_take (l : List SolveRecord) (c : ℕ) :
    calculateAverage l c = calculateAverage (l.take c) c := by
  simp only [calculateAverage, List.length_take, List.take_take, min_self]
  exact if_congr (by omega) rfl rfl

theorem find?_update_map {α : Type} (l : List (Session α)) (aid : String)
    (g : Session α → Session α) (hg : ∀ s, (g s).id = s.id) :
    (l.map (fun s => if s.id = aid then g s else s)).find?
        (fun s => s.id == aid) =
      (l.find? (fun s => s.id == aid)).map g := by
  induction l with
  | nil => rfl
  | cons b t ih =>
    by_cases hb : b.id = aid
    · simp [List.find?_cons, hb, hg]
    · simp [List.find?_cons, hb, ih]

/-- C6: appending a solve to the active session prepends it, keeps every
record's non-average fields, and leaves every record at index `i` with
cached `ao5`/`ao12` equal to `calculateAverage` of the suffix starting at
`i` (with counts 5 and 12) — equivalently, of just the records at indices
`[i, i+count)`. -/
theorem addSolve_recomputes_averages (now : ℤ) (solve : SolveRecord)
    (m : SessionManager SolveRecord) (sess : Session SolveRecord)
    (h : getActiveSession m = some sess) :
    ∃ sess',
      getActiveSession (addSolveToActiveSession now solve m) = some sess' ∧
      sess'.solves.length = sess.solves.length + 1 ∧
      sess'.solves.map stripAverages =
        (solve :: sess.solves).map stripAverages ∧
      ∀ (i : ℕ) (hi : i < sess'.solves.length),
        (sess'.solves.get ⟨i, hi⟩).ao5 =
          calculateAverage (sess'.solves.drop i) 5 ∧
        (sess'.solves.get ⟨i, hi⟩).ao5 =
          calculateAverage ((sess'.solves.drop i).take 5) 5 ∧
        (sess'.solves.get ⟨i, hi⟩).ao12 =
          calculateAverage (sess'.solves.drop i) 12 ∧
        (sess'.solves.get ⟨i, hi⟩).ao12 =
          calculateAverage ((sess'.solves.drop i).take 12) 12 := by
  rw [getActiveSession] at h
  refine ⟨{ sess with
    solves := recomputeAverages (solve :: sess.solves) }, ?_, ?_, ?_, ?_⟩
  · unfold addSolveToActiveSession
    rw [h]
    rw [getActiveSession]
    have := find?_update_map m.sessions m.activeSessionId
      (fun s => { s with solves := recomputeAverages (solve :: sess.solves) })
      (fun s => rfl)
    simp only at this ⊢
    rw [this, h]
    rfl
  · simp [recomputeAverages_length]
  · exact recomputeAverages_strip (solve :: sess.solves)
  · intro i hi
    have hbase := recomputeAverages_get (solve :: sess.solves) i hi
    have hkey : ((recomputeAverages (solve :: sess.solves)).drop i).map solveKey
        = ((solve :: sess.solves).drop i).map solveKey := by
      rw [List.map_drop, List.map_drop, recomputeAverages_key]
    have h5 : calculateAverage
        ((recomputeAverages (solve :: sess.solves)).drop i) 5 =
        calculateAverage ((solve :: sess.solves).drop i) 5 :=
      calculateAverage_congr hkey 5
    have h12 : calculateAverage
        ((recomputeAverages (solve :: sess.solves)).drop i) 12 =
        calculateAverage ((solve :: sess.solves).drop i) 12 :=
      calculateAverage_congr hkey 12
    refine ⟨?_, ?_, ?_, ?_⟩
    · rw [h5]
      exact hbase.1
    · rw [← calculateAverage_take, h5]
      exact hbase.1
    · rw [h12]
      exact hbase.2
    · rw [← calculateAverage_take, h12]
      exact hbase.2

/-- Witness for `addSolve_recomputes_averages`: one solve appended to the
fresh default store's empty active session. -/
theorem addSolve_recomputes_averages_witness :
    ∃ sess',
      getActiveSession (addSolveToActiveSession 1 (mkSolve "s1" 10 .ok)
        (defaultStore SolveRecord 0)) = some sess' ∧
      sess'.solves.length =
        (defaultSession SolveRecord 0).solves.length + 1 ∧
      sess'.solves.map stripAverages =
        (mkSolve "s1" 10 .ok ::
          (defaultSession SolveRecord 0).solves).map stripAverages ∧
      ∀ (i : ℕ) (hi : i < sess'.solves.length),
        (sess'.solves.get ⟨i, hi⟩).ao5 =
          calculateAverage (sess'.solves.drop i) 5 ∧
        (sess'.solves.get ⟨i, hi⟩).ao5 =
          calculateAverage ((sess'.solves.drop i).take 5) 5 ∧
        (sess'.solves.get ⟨i, hi⟩).ao12 =
          calculateAverage (sess'.solves.drop i) 12 ∧
        (sess'.solves.get ⟨i, hi⟩).ao12 =
          calculateAverage ((sess'.solves.drop i).take 12) 12 :=
  addSolve_recomputes_averages 1 (mkSolve "s1" 10 .ok)
    (defaultStore SolveRecord 0) (defaultSession SolveRecord 0) (by decide)

theorem countP_top_map_effTime (recent : List SolveRecord) :
    (recent.map effTime).countP (fun t => t == ⊤) =
      (recent.filter (fun s => s.state == SolveState.dnf)).length := by
  rw [← List.countP_eq_length_filter, List.countP_map]
  have hpred : ((fun t : WithTop ℚ => t == ⊤) ∘ effTime) =
      (fun s : SolveRecord => s.state == SolveState.dnf) := by
    funext s
    cases hs : s.state <;>
      simp [effTime, hs, Function.comp, beq_eq_false_iff_ne]
  rw [hpred]

theorem two_tops_of_mem_dropLast (l : List (WithTop ℚ))
    (hs : List.Sorted (· ≤ ·) l) (hmem : (⊤ : WithTop ℚ) ∈ l.dropLast) :
    2 ≤ l.countP (fun t => t == ⊤) := by
  have hne : l ≠ [] := by
    rintro rfl
    simp at hmem
  have hdecomp : l.dropLast ++ [l.getLast hne] = l :=
    List.dropLast_append_getLast hne
  have hs' : List.Sorted (· ≤ ·) (l.dropLast ++ [l.getLast hne]) := by
    rw [hdecomp]
    exact hs
  have hpair := (List.pairwise_append.mp hs').2.2
  have hlast : l.getLast hne = ⊤ :=
    top_le_iff.mp (hpair ⊤ hmem _ (List.mem_cons_self _ _))
  have h1 : 0 < (l.dropLast).countP (fun t => t == ⊤) :=
    List.countP_pos_iff.mpr ⟨⊤, hmem, by simp⟩
  have h2 : l.countP (fun t => t == ⊤) =
      (l.dropLast).countP (fun t => t == ⊤) +
        ([l.getLast hne].countP (fun t => t == ⊤)) := by
    rw [← List.countP_append, hdecomp]
  have h3 : [l.getLast hne].countP (fun t => t == ⊤) = 1 := by
    simp [hlast]
  omega

theorem trimmed_no_top (l : List (WithTop ℚ))
    (hs : List.Sorted (· ≤ ·) l)
    (hle : l.countP (fun t => t == ⊤) ≤ 1) :
    ∀ t ∈ (l.drop 1).dropLast, t ≠ ⊤ := by
  intro t ht
  rintro rfl
  have hs1 : List.Sorted (· ≤ ·) (l.drop 1) :=
    List.Pairwise.sublist (List.drop_sublist 1 l) hs
  have h2 := two_tops_of_mem_dropLast (l.drop 1) hs1 ht
  have h3 : (l.drop 1).countP (fun t => t == ⊤) ≤
      l.countP (fun t => t == ⊤) :=
    List.Sublist.countP_le _ (List.drop_sublist 1 l)
  omega

theorem exists_coe_rep :
    ∀ (x : List (WithTop ℚ)), (∀ t ∈ x, t ≠ ⊤) →
      ∃ ts : List ℚ, x = ts.map toTop
  | [], _ => ⟨[], rfl⟩
  | a :: t, h => by
    obtain ⟨ts, hts⟩ :=
      exists_coe_rep t (fun b hb => h b (List.mem_cons_of_mem a hb))
    obtain ⟨q, hq⟩ :=
      WithTop.ne_top_iff_exists.mp (h a (List.mem_cons_self a t))
    refine ⟨q :: ts, ?_⟩
    rw [List.map_cons]
    show a :: t = toTop q :: ts.map toTop
    rw [show toTop q = a from hq, ← hts]

theorem finitePart_cons_coe (q : ℚ) (x : List (WithTop ℚ)) :
    finitePart (toTop q :: x) = q :: finitePart x := by
  have hq : (toTop q == ⊤) = false := by
    simp [toTop, beq_eq_false_iff_ne]
  simp [finitePart, List.filter_cons, hq, toTop]

theorem finitePart_coe (ts : List ℚ) :
    finitePart (ts.map toTop) = ts := by
  induction ts with
  | nil => rfl
  | cons q t ih =>
    rw [List.map_cons, finitePart_cons_coe, ih]

/-- C2: for a window of `count ≥ 3` most recent solves (with at least
`count` solves available), `calculateAverage` is the DNF marker when the
window holds 2+ DNFs, and otherwise equals the arithmetic mean of the
`count - 2` effective times that remain after sorting the window's
effective times ascending and discarding the single fastest and single
slowest entries — the at-most-one DNF (sorted worst) always lands in the
discarded slot, so every averaged entry is finite. -/
theorem calculateAverage_trimmed_mean (solves : List SolveRecord)
    (count : ℕ) (hlen : count ≤ solves.length) (hcount : 3 ≤ count) :
    (2 ≤ windowDnfCount solves count →
      calculateAverage solves count = none) ∧
    (windowDnfCount solves count ≤ 1 →
      ∃ ts : List ℚ,
        ((sortTimes ((solves.take count).map effTime)).drop 1).dropLast =
          ts.map toTop ∧
        ts.length = count - 2 ∧
        calculateAverage solves count =
          some (ts.sum / (ts.length : ℚ))) := by
  have hnotlt : ¬ solves.length < count := by omega
  constructor
  · intro h2
    unfold windowDnfCount at h2
    simp only [calculateAverage]
    rw [if_neg hnotlt, if_pos h2]
  · intro h1
    unfold windowDnfCount at h1
    have hsort : List.Sorted (· ≤ ·)
        (sortTimes ((solves.take count).map effTime)) :=
      List.sorted_insertionSort _ _
    have hperm : (sortTimes ((solves.take count).map effTime)).Perm
        ((solves.take count).map effTime) :=
      List.perm_insertionSort _ _
    have hcnt : (sortTimes ((solves.take count).map effTime)).countP
        (fun t => t == ⊤) ≤ 1 := by
      rw [List.Perm.countP_eq _ hperm, countP_top_map_effTime]
      exact h1
    have hnotop := trimmed_no_top _ hsort hcnt
    obtain ⟨ts, hts⟩ := exists_coe_rep _ hnotop
    have hslen : (sortTimes ((solves.take count).map effTime)).length
        = count := by
      rw [hperm.length_eq, List.length_map, List.length_take]
      omega
    have htslen : ts.length = count - 2 := by
      have hl := congrArg List.length hts
      simp only [List.length_dropLast, List.length_drop,
        List.length_map, hslen] at hl
      omega
    have hdnf2 : ¬ 2 ≤ ((solves.take count).filter
        (fun s => s.state == SolveState.dnf)).length := by omega
    have hts0 : ¬ (ts.length = 0) := by omega
    refine ⟨ts, hts, htslen, ?_⟩
    simp only [calculateAverage]
    rw [if_neg hnotlt, if_neg hdnf2, hts, finitePart_coe, if_neg hts0]

/-- Five all-`ok` solves used as a concrete statistics input. -/
def sampleSolves : List SolveRecord :=
  [mkSolve "a" 10 .ok, mkSolve "b" 20 .ok, mkSolve "c" 30 .ok,
   mkSolve "d" 40 .ok, mkSolve "e" 50 .ok]

/-- Witness for `calculateAverage_trimmed_mean` on five `ok` solves with
`count = 5`. -/
theorem calculateAverage_trimmed_mean_witness :
    (5 ≤ sampleSolves.length ∧ 3 ≤ 5) ∧
    ((2 ≤ windowDnfCount sampleSolves 5 →
      calculateAverage sampleSolves 5 = none) ∧
    (windowDnfCount sampleSolves 5 ≤ 1 →
      ∃ ts : List ℚ,
        ((sortTimes ((sampleSolves.take 5).map effTime)).drop 1).dropLast =
          ts.map toTop ∧
        ts.length = 5 - 2 ∧
        calculateAverage sampleSolves 5 =
          some (ts.sum / (ts.length : ℚ)))) :=
  ⟨⟨by decide, by decide⟩,
   calculateAverage_trimmed_mean sampleSolves 5 (by decide) (by decide)⟩

theorem sorted_of_map_toTop (ts : List ℚ)
    (h : List.Sorted (· ≤ ·) (ts.map toTop)) : List.Sorted (· ≤ ·) ts := by
  have h' := List.pairwise_map.mp h
  exact h'.imp (fun hab => by simpa [toTop] using hab)

theorem forall₂_dropLast_tail :
    ∀ (ts : List ℚ), List.Sorted (· ≤ ·) ts →
      List.Forall₂ (· ≤ ·) ts.dropLast ts.tail
  | [], _ => by simp
  | [_], _ => by simp
  | a :: b :: u, h => by
    rw [List.sorted_cons] at h
    obtain ⟨hab, ht⟩ := h
    rw [List.dropLast_cons₂, List.tail_cons]
    exact List.Forall₂.cons (hab b (List.mem_cons_self _ _))
      (forall₂_dropLast_tail (b :: u) ht)

theorem forall₂_le_dropLast :
    ∀ (x y : List ℚ), List.Forall₂ (· ≤ ·) x y →
      List.Forall₂ (· ≤ ·) x.dropLast y.dropLast
  | [], [], _ => by simp
  | [], _ :: _, h => by cases h
  | _ :: _, [], h => by cases h
  | [a], b :: y', h => by
    cases h with
    | cons hab htail =>
      cases htail
      simp
  | a :: c :: x'', b :: y', h => by
    cases h with
    | cons hab htail =>
      cases y' with
      | nil => cases htail
      | cons d y'' =>
        rw [List.dropLast_cons₂, List.dropLast_cons₂]
        exact List.Forall₂.cons hab (forall₂_le_dropLast _ _ htail)

theorem trimmed_mean_le (x y : List ℚ)
    (hf : List.Forall₂ (· ≤ ·) x y) (hx : x.length ≠ 0) :
    x.sum / (x.length : ℚ) ≤ y.sum / (y.length : ℚ) := by
  have hlen : x.length = y.length := hf.length_eq
  rw [← hlen]
  have hsum : x.sum ≤ y.sum := List.Forall₂.sum_le_sum hf
  have hpos : (0 : ℚ) < (x.length : ℚ) := by
    exact_mod_cast Nat.pos_of_ne_zero hx
  exact div_le_div_of_nonneg_right hsum hpos.le

/-- C10: on a DNF-free window (`count ≥ 3`, enough solves), the
best-possible mean, the trimmed average, and the worst-possible mean are
all computed and ordered: best ≤ average ≤ worst. -/
theorem bestWorst_bound_average (solves : List SolveRecord) (count : ℕ)
    (hcount : 3 ≤ count) (hlen : count ≤ solves.length)
    (hdnf : windowDnfCount solves count = 0) :
    ∃ b a w,
      calculateBestWorstPossible solves count = (some b, some w) ∧
      calculateAverage solves count = some a ∧
      b ≤ a ∧ a ≤ w := by
  unfold windowDnfCount at hdnf
  have hnotlt : ¬ solves.length < count := by omega
  have hperm : (sortTimes ((solves.take count).map effTime)).Perm
      ((solves.take count).map effTime) := List.perm_insertionSort _ _
  have hsortSorted : List.Sorted (· ≤ ·)
      (sortTimes ((solves.take count).map effTime)) :=
    List.sorted_insertionSort _ _
  have hcnt0 : (sortTimes ((solves.take count).map effTime)).countP
      (fun t => t == ⊤) = 0 := by
    rw [List.Perm.countP_eq _ hperm, countP_top_map_effTime, hdnf]
  have hnotop : ∀ t ∈ sortTimes ((solves.take count).map effTime),
      t ≠ ⊤ := by
    intro t ht hteq
    have hpos : 0 < (sortTimes ((solves.take count).map effTime)).countP
        (fun t => t == ⊤) :=
      List.countP_pos_iff.mpr ⟨t, ht, by simp [hteq]⟩
    omega
  obtain ⟨ts, hts⟩ := exists_coe_rep _ hnotop
  have hslen : (sortTimes ((solves.take count).map effTime)).length
      = count := by
    rw [hperm.length_eq, List.length_map, List.length_take]
    omega
  have htslen : ts.length = count := by
    have hl := congrArg List.length hts
    rw [hslen, List.length_map] at hl
    omega
  have hsortedQ : List.Sorted (· ≤ ·) ts :=
    sorted_of_map_toTop ts (hts ▸ hsortSorted)
  have hbestlist : (sortTimes ((solves.take count).map effTime)).take
      ((sortTimes ((solves.take count).map effTime)).length - 2) =
      (ts.take (count - 2)).map toTop := by
    rw [hslen, hts, ← List.map_take]
  have hworstlist : (sortTimes ((solves.take count).map effTime)).drop 2 =
      (ts.drop 2).map toTop := by
    rw [hts, ← List.map_drop]
  have havglist :
      ((sortTimes ((solves.take count).map effTime)).drop 1).dropLast =
      ((ts.drop 1).dropLast).map toTop := by
    rw [hts, ← List.map_drop, List.dropLast_eq_take, List.dropLast_eq_take,
      List.length_map, ← List.map_take]
  have hdnfneg : ¬ 2 ≤ ((solves.take count).filter
      (fun s => s.state == SolveState.dnf)).length := by omega
  have hb0 : 0 < (ts.take (count - 2)).length := by
    rw [List.length_take, htslen]
    omega
  have hw0 : 0 < (ts.drop 2).length := by
    rw [List.length_drop, htslen]
    omega
  have ha0 : ¬ (((ts.drop 1).dropLast).length = 0) := by
    rw [List.length_dropLast, List.length_drop, htslen]
    omega
  refine ⟨(ts.take (count - 2)).sum / ((ts.take (count - 2)).length : ℚ),
    ((ts.drop 1).dropLast).sum / (((ts.drop 1).dropLast).length : ℚ),
    (ts.drop 2).sum / ((ts.drop 2).length : ℚ), ?_, ?_, ?_, ?_⟩
  · simp only [calculateBestWorstPossible]
    rw [if_neg hnotlt, if_neg hdnfneg, hbestlist, finitePart_coe,
      hworstlist, finitePart_coe, if_pos hb0, if_pos hw0]
  · simp only [calculateAverage]
    rw [if_neg hnotlt, if_neg hdnfneg, havglist, finitePart_coe,
      if_neg ha0]
  · have h0 := forall₂_dropLast_tail ts hsortedQ
    have h1 := forall₂_le_dropLast _ _ h0
    have e1 : (ts.dropLast).dropLast = ts.take (count - 2) := by
      rw [List.dropLast_eq_take, List.dropLast_eq_take, List.length_take,
        List.take_take, htslen]
      congr 1
      omega
    rw [e1, ← List.drop_one] at h1
    exact trimmed_mean_le _ _ h1 (by omega)
  · have hsorted1 : List.Sorted (· ≤ ·) (ts.drop 1) :=
      List.Pairwise.sublist (List.drop_sublist 1 ts) hsortedQ
    have h2 := forall₂_dropLast_tail (ts.drop 1) hsorted1
    have e2 : (ts.drop 1).tail = ts.drop 2 := List.tail_drop ts 1
    rw [e2] at h2
    exact trimmed_mean_le _ _ h2 (by omega)

/-- Witness for `bestWorst_bound_average` on five `ok` solves with
`count = 5`. -/
theorem bestWorst_bound_average_witness :
    (3 ≤ 5 ∧ 5 ≤ sampleSolves.length ∧
      windowDnfCount sampleSolves 5 = 0) ∧
    ∃ b a w,
      calculateBestWorstPossible sampleSolves 5 = (some b, some w) ∧
      calculateAverage sampleSolves 5 = some a ∧
      b ≤ a ∧ a ≤ w :=
  ⟨⟨by decide, by decide, by decide⟩,
   bestWorst_bound_average sampleSolves 5 (by decide) (by decide)
     (by decide)⟩
